import Mathlib

/-
Verification of the testvet analyzer.

This file is a shallow embedding of the Go source of the testvet tool:
the analyzer (analyzer.go), the coverage-output parser, and the
orchestration in main.go, together with theorems settling the claims of
the specification.

Modelling conventions:
* Go strings are modelled as `List Char` (`GoStr`); the analyzer only
  ever handles ASCII identifiers and paths, for which this is exact.
* Go maps (`map[string][]FuncInfo`, `map[string]bool`, ...) are modelled
  as association lists / plain lists; iteration order of a Go map is
  unspecified, the model fixes it to the list order, and order-dependence
  is exercised by permuting the lists.
* float64 percentages are modelled as `ℚ`; the source only compares
  percentages (never computes with them), and the comparisons agree with
  the rational ones for all values in scope.
* The two I/O probes inside the coverage parser (filepath.Abs/Rel and
  os.Stat) are passed in as oracle functions.
-/

/-- Go strings as lists of characters. -/
abbrev GoStr := List Char

/-- Literal helper: the character list of a Lean string literal. -/
def gs (s : String) : GoStr := s.data

/-- strings.HasPrefix. -/
def strStartsWith : GoStr → GoStr → Bool
  | [], _ => true
  | _ :: _, [] => false
  | p :: ps, c :: cs => p = c && strStartsWith ps cs

/-- strings.HasSuffix. -/
def strEndsWith (pat s : GoStr) : Bool :=
  strStartsWith pat.reverse s.reverse

/-- strings.Split with a single-character separator. -/
def splitOnChar (sep : Char) : GoStr → List GoStr
  | [] => [[]]
  | c :: cs =>
    match splitOnChar sep cs with
    | [] => [[]]
    | f :: fs => if c = sep then [] :: f :: fs else (c :: f) :: fs

/-- strings.LastIndex for a single-character needle (position of the last
occurrence). -/
def lastIndexOfChar (ch : Char) : GoStr → Option Nat
  | [] => none
  | c :: cs =>
    match lastIndexOfChar ch cs with
    | some i => some (i + 1)
    | none => if c = ch then some 0 else none

/-- The `called[idx+1:]` computed by the source at several places from
`idx := strings.LastIndex(s, "_")` under the guard `idx > 0`. -/
def baseAfterLastUS (s : GoStr) : Option GoStr :=
  match lastIndexOfChar '_' s with
  | some i => if 0 < i then some (s.drop (i + 1)) else none
  | none => none

/-- strings.TrimSuffix. -/
def trimSuffixStr (s pat : GoStr) : GoStr :=
  if strEndsWith pat s then s.take (s.length - pat.length) else s

/-- ASCII lowering of one character (the identifiers in scope are ASCII,
where Go's strings.ToLower acts exactly like this). -/
def toLowerChar (c : Char) : Char :=
  if 'A' ≤ c ∧ c ≤ 'Z' then Char.ofNat (c.toNat + 32) else c

/-- strings.ToLower, ASCII fragment. -/
def toLowerStr (s : GoStr) : GoStr := s.map toLowerChar

/-- strings.EqualFold, ASCII fragment. -/
def equalFold (a b : GoStr) : Bool := toLowerStr a = toLowerStr b

/-- filepath.Dir for the already-relative, already-clean paths the
analyzer produces (no `.`/`..` components, no duplicate slashes). -/
def dirOf (p : GoStr) : GoStr :=
  match lastIndexOfChar '/' p with
  | none => gs "."
  | some i => if p.take i = [] then gs "/" else p.take i

/-- Go map lookup on an association list (first binding wins). -/
def lookupMap {α : Type} (m : List (GoStr × α)) (k : GoStr) : Option α :=
  match m with
  | [] => none
  | (k2, v) :: rest => if k2 = k then some v else lookupMap rest k

/-- FuncInfo from types.go. -/
structure FuncInfo where
  Name : GoStr
  File : GoStr
  Line : Nat
  Receiver : GoStr
deriving DecidableEq

/-- TestInfo from types.go. -/
structure TestInfo where
  Name : GoStr
  File : GoStr
  Line : Nat
  CalledFuncs : List GoStr
deriving DecidableEq

/-- MisplacedTest from types.go. -/
structure MisplacedTest where
  Test : TestInfo
  ExpectedFile : GoStr
  ActualFile : GoStr
deriving DecidableEq

/-- isTestFunction from analyzer.go. -/
def isTestFunction (name : GoStr) : Bool :=
  strStartsWith (gs "Test") name ||
  strStartsWith (gs "Benchmark") name ||
  strStartsWith (gs "Example") name ||
  strStartsWith (gs "Fuzz") name

/-- The `funcKey` computed from a declaration (`Receiver_Name` for
methods, plain `Name` otherwise), as in matchesFunctionCall and
buildProperlyTestedFuncsMap. -/
def funcKeyOf (f : FuncInfo) : GoStr :=
  if f.Receiver = [] then f.Name else f.Receiver ++ '_' :: f.Name

/-- matchesFunctionCall from analyzer.go. -/
def matchesFunctionCall (f : FuncInfo) (calledFunc : GoStr) : Bool :=
  funcKeyOf f = calledFunc || f.Name = calledFunc

/-- buildTestedFuncsMap from analyzer.go: the union of all called targets
(membership in the list models membership in the Go set). -/
def buildTestedFuncsMap (fileTests : List (GoStr × List TestInfo)) : List GoStr :=
  fileTests.flatMap (fun tf => tf.2.flatMap (fun t => t.CalledFuncs))

/-- isFunctionTested from analyzer.go. -/
def isFunctionTested (f : FuncInfo) (testedFuncs : List GoStr) : Bool :=
  decide (f.Name ∈ testedFuncs) ||
  (decide (f.Receiver ≠ []) && decide ((f.Receiver ++ '_' :: f.Name) ∈ testedFuncs)) ||
  testedFuncs.any (fun calledFunc => strEndsWith ('_' :: f.Name) calledFunc)

/-- The `sourceFile + "_test.go"` construction used by
buildProperlyTestedFuncsMap and checkTestPlacement. -/
def expectedTestFileOf (sourceFile : GoStr) : GoStr :=
  trimSuffixStr sourceFile (gs ".go") ++ gs "_test.go"

/-- The `calledInExpectedFile` set of buildProperlyTestedFuncsMap: every
called target of every test in the expected file, plus the base name
after the last underscore of each (when that underscore sits at a
positive index). -/
def calledKeysWithBases (tests : List TestInfo) : List GoStr :=
  tests.flatMap (fun t => t.CalledFuncs.flatMap (fun c =>
    c :: (match baseAfterLastUS c with
          | some b => [b]
          | none => [])))

/-- buildProperlyTestedFuncsMap from analyzer.go.  The Go code fills a
`map[string]bool`; the model collects the same keys into a list, so that
list membership coincides with map membership. -/
def buildProperlyTestedFuncsMap (fileTests : List (GoStr × List TestInfo))
    (fileFunctions : List (GoStr × List FuncInfo)) : List GoStr :=
  fileFunctions.flatMap (fun sf =>
    match lookupMap fileTests (expectedTestFileOf sf.1) with
    | none => []
    | some tests =>
      let called := calledKeysWithBases tests
      sf.2.flatMap (fun f =>
        if f.Name ∈ called ∨ funcKeyOf f ∈ called
        then [f.Name, funcKeyOf f] else []))

/-- The two `continue` guards at the top of findPrimarySourceFile's loop:
a called target is skipped when it, or its base after the last
underscore, is in the properly-tested set. -/
def skipProperlyTested (props : List GoStr) (calledFunc : GoStr) : Bool :=
  decide (calledFunc ∈ props) ||
  (match baseAfterLastUS calledFunc with
   | some b => decide (b ∈ props)
   | none => false)

/-- Incrementing one key of the `sourceFileCounts` map; a fresh key is
appended, so the model's count list is in first-increment order. -/
def bumpCount (m : List (GoStr × Nat)) (k : GoStr) : List (GoStr × Nat) :=
  match m with
  | [] => [(k, 1)]
  | (k2, n) :: rest => if k2 = k then (k2, n + 1) :: rest else (k2, n) :: bumpCount rest k

/-- The `sourceFileCounts` accumulation loop of findPrimarySourceFile
(the inner `break` makes each source file count at most once per called
target, which `List.any` reproduces). -/
def sourceFileCounts (calledFuncs : List GoStr)
    (fileFunctions : List (GoStr × List FuncInfo)) (props : List GoStr) :
    List (GoStr × Nat) :=
  calledFuncs.foldl (fun counts cf =>
    if skipProperlyTested props cf then counts
    else fileFunctions.foldl (fun cnts sf =>
      if sf.2.any (fun f => matchesFunctionCall f cf) then bumpCount cnts sf.1 else cnts)
      counts) []

/-- The max-count scan at the end of findPrimarySourceFile: first
strictly greater count wins, starting from `maxCalls = 0`.  Go iterates
the count map in unspecified order; the model iterates in
first-increment order. -/
def argmaxCount (counts : List (GoStr × Nat)) : GoStr :=
  (counts.foldl (fun best p => if best.2 < p.2 then p else best) (([] : GoStr), 0)).1

/-- findPrimarySourceFile from analyzer.go. -/
def findPrimarySourceFile (calledFuncs : List GoStr)
    (fileFunctions : List (GoStr × List FuncInfo)) (props : List GoStr) : GoStr :=
  argmaxCount (sourceFileCounts calledFuncs fileFunctions props)

/-- extractFunctionNamesFromTest from analyzer.go. -/
def extractFunctionNamesFromTest (testName : GoStr) : List GoStr :=
  if strStartsWith (gs "Test") testName then
    let name := testName.drop 4
    let name := if strStartsWith (gs "_") name then name.drop 1 else name
    if name = [] then []
    else
      let parts := splitOnChar '_' name
      if parts.length = 1 then parts
      else parts.reverse.filter (fun p => p ≠ [])
  else []

/-- extractReceiverTypeFromTest from analyzer.go. -/
def extractReceiverTypeFromTest (testName : GoStr) : GoStr :=
  if strStartsWith (gs "Test") testName then
    let name := testName.drop 4
    let name := if strStartsWith (gs "_") name then name.drop 1 else name
    if name = [] then []
    else
      match splitOnChar '_' name with
      | p :: _ :: _ => p
      | _ => []
  else []

/-- The called-target scan at the top of tryMatchFunctionName: the first
called target that declMatches the candidate in any of the four ways. -/
def findMatchedName (funcNameLower : GoStr) (calledFuncs : List GoStr) : Option GoStr :=
  calledFuncs.find? (fun called =>
    let calledLower := toLowerStr called
    decide (calledLower = funcNameLower) ||
    strEndsWith ('_' :: funcNameLower) calledLower ||
    strStartsWith funcNameLower calledLower ||
    (match baseAfterLastUS calledLower with
     | some methodPart => strStartsWith funcNameLower methodPart
     | none => false))

/-- tryMatchFunctionName from analyzer.go.  The `declMatches` slice is built
by two independent appends per declaration, exactly as in the source. -/
def tryMatchFunctionName (funcName receiverType : GoStr) (calledFuncs : List GoStr)
    (fileFunctions : List (GoStr × List FuncInfo)) : GoStr :=
  let funcNameLower := toLowerStr funcName
  match findMatchedName funcNameLower calledFuncs with
  | none => []
  | some matchedName =>
    let declMatches := fileFunctions.flatMap (fun sf =>
      sf.2.flatMap (fun f =>
        (if equalFold f.Name matchedName ∨ f.Name = matchedName
         then [(sf.1, f.Receiver)] else []) ++
        (if strEndsWith ('_' :: toLowerStr f.Name) (toLowerStr matchedName)
         then [(sf.1, f.Receiver)] else [])))
    match declMatches with
    | [] => []
    | m0 :: _ =>
      if receiverType ≠ [] then
        match declMatches.find? (fun m => equalFold m.2 receiverType) with
        | some m => m.1
        | none => m0.1
      else m0.1

/-- The candidate loop of findSourceByTestName: first candidate whose
match resolves to a non-empty file name. -/
def firstNonNilStr : List GoStr → GoStr
  | [] => []
  | s :: rest => if s = [] then firstNonNilStr rest else s

/-- findSourceByTestName from analyzer.go. -/
def findSourceByTestName (testName : GoStr) (calledFuncs : List GoStr)
    (fileFunctions : List (GoStr × List FuncInfo)) : GoStr :=
  let candidates := extractFunctionNamesFromTest testName
  if candidates = [] then []
  else
    let receiverType := extractReceiverTypeFromTest testName
    firstNonNilStr (candidates.map (fun fn =>
      tryMatchFunctionName fn receiverType calledFuncs fileFunctions))

/-- checkTestPlacement from analyzer.go. -/
def checkTestPlacement (test : TestInfo) (testFile : GoStr)
    (fileFunctions : List (GoStr × List FuncInfo)) (props : List GoStr) :
    Option MisplacedTest :=
  if test.CalledFuncs = [] then none
  else
    let primary0 := findSourceByTestName test.Name test.CalledFuncs fileFunctions
    let primary := if primary0 = []
      then findPrimarySourceFile test.CalledFuncs fileFunctions props
      else primary0
    if primary = [] then none
    else
      let expected := expectedTestFileOf primary
      if testFile = expected then none
      else if dirOf testFile ≠ dirOf expected then none
      else some { Test := test, ExpectedFile := expected, ActualFile := testFile }

/-- The lexicographic (string key, line) order used by all three output
sorts in the source. -/
def strLtB : GoStr → GoStr → Bool
  | [], [] => false
  | [], _ :: _ => true
  | _ :: _, [] => false
  | a :: as, b :: bs =>
    if a.toNat < b.toNat then true
    else if b.toNat < a.toNat then false
    else strLtB as bs

/-- Sort key order: by string key, then by numeric key, ascending — the
comparator shape of all three sort.Slice calls in the source. -/
def byKeyLe {α : Type} (kf : α → GoStr) (kn : α → Nat) (a b : α) : Prop :=
  strLtB (kf a) (kf b) = true ∨ (kf a = kf b ∧ kn a ≤ kn b)

instance {α : Type} (kf : α → GoStr) (kn : α → Nat) : DecidableRel (byKeyLe kf kn) :=
  fun a b => by unfold byKeyLe; infer_instance

/-- findFunctionsWithoutTests from analyzer.go (coverageThreshold = 50).
`coverageMap = none` models the nil map. -/
def findFunctionsWithoutTests (fileFunctions : List (GoStr × List FuncInfo))
    (testedFuncs : List GoStr) (coverageMap : Option (List (GoStr × ℚ))) :
    List FuncInfo :=
  let result := fileFunctions.flatMap (fun sf => sf.2.filter (fun f =>
    !isFunctionTested f testedFuncs &&
    (match coverageMap with
     | some m =>
       match lookupMap m f.Name with
       | some cov => decide (cov < 50)
       | none => true
     | none => true)))
  List.insertionSort (byKeyLe FuncInfo.File FuncInfo.Line) result

/-- findMisplacedTests from analyzer.go. -/
def findMisplacedTests (fileTests : List (GoStr × List TestInfo))
    (fileFunctions : List (GoStr × List FuncInfo)) : List MisplacedTest :=
  let props := buildProperlyTestedFuncsMap fileTests fileFunctions
  let result := fileTests.flatMap (fun tf =>
    tf.2.filterMap (fun t => checkTestPlacement t tf.1 fileFunctions props))
  List.insertionSort (byKeyLe MisplacedTest.ActualFile (fun m => m.Test.Line)) result

/-- The fragment of Go's expression AST the analyzer inspects.  `call`
covers ast.CallExpr, `selector` ast.SelectorExpr, `ident` ast.Ident;
`funcLit` and `basicLit` stand for the remaining callee shapes
(function literals, other literals, and any further node kinds are
represented by these two constructors plus nested calls). -/
inductive GoExpr where
  | ident (name : GoStr)
  | selector (x : GoExpr) (selName : GoStr)
  | call (fn : GoExpr) (args : List GoExpr)
  | funcLit (body : List GoExpr)
  | basicLit (lit : GoStr)

/-- extractFuncNameFromCall from analyzer.go, applied to an ast.CallExpr
node (the empty string models Go's `""`, i.e. no target key). -/
def extractFuncNameFromCall (e : GoExpr) : GoStr :=
  match e with
  | .call fn _ =>
    match fn with
    | .ident n => n
    | .selector x selName =>
      match x with
      | .ident recvName => recvName ++ '_' :: selName
      | _ => selName
    | _ => []
  | _ => []

mutual
/-- The node sequence ast.Inspect visits inside one expression
(depth-first, parents before children). -/
def walkNodes : GoExpr → List GoExpr
  | .ident n => [.ident n]
  | .selector x s => .selector x s :: walkNodes x
  | .call fn args => .call fn args :: (walkNodes fn ++ walkNodesList args)
  | .funcLit body => .funcLit body :: walkNodesList body
  | .basicLit v => [.basicLit v]

/-- ast.Inspect over a list of sibling nodes, left to right. -/
def walkNodesList : List GoExpr → List GoExpr
  | [] => []
  | e :: es => walkNodes e ++ walkNodesList es
end

/-- One visit of extractCalledFunctions' ast.Inspect callback: on a
CallExpr node, a non-empty unseen key goes into the `seen` set (first
component) and onto the output slice (second component). -/
def collectCallStep (st : List GoStr × List GoStr) (n : GoExpr) :
    List GoStr × List GoStr :=
  match n with
  | GoExpr.call fn args =>
    let funcName := extractFuncNameFromCall (GoExpr.call fn args)
    if funcName ≠ [] ∧ funcName ∉ st.1
    then (funcName :: st.1, st.2 ++ [funcName]) else st
  | _ => st

/-- extractCalledFunctions from analyzer.go: `none` models a nil
funcDecl.Body. -/
def extractCalledFunctions (body : Option (List GoExpr)) : List GoStr :=
  match body with
  | none => []
  | some stmts =>
    ((walkNodesList stmts).foldl collectCallStep
      (([] : List GoStr), ([] : List GoStr))).2

/-- LowCoverageFunc from types.go. -/
structure LowCoverageFunc where
  File : GoStr
  Line : Nat
  Name : GoStr
  Coverage : ℚ
  Threshold : ℚ
deriving DecidableEq

/-- The RE2 character class `\d`. -/
def isGoRegexDigit (c : Char) : Bool := decide ('0' ≤ c ∧ c ≤ '9')

/-- The RE2 character class `\s` (`[\t\n\f\r ]`). -/
def isGoRegexSpace (c : Char) : Bool :=
  decide (c = '\t' ∨ c = '\n' ∨ c = '\x0c' ∨ c = '\r' ∨ c = ' ')

/-- The tail of the coverage-line pattern `:(\d+):\s+(\S+)\s+(\d+\.?\d*)%$`
matched after the `(.+)` group.  Every quantifier here is determined
without backtracking: each `X+` is followed by a token outside the class
of `X`, so the greedy maximal run is the only possible match.  Returns
(line digits, function name, integer digits, fractional digits?). -/
def matchAfterFile (r : GoStr) : Option (GoStr × GoStr × GoStr × Option GoStr) :=
  match r with
  | ':' :: r1 =>
    let p1 := r1.span isGoRegexDigit
    if p1.1 = [] then none
    else
      match p1.2 with
      | ':' :: r3 =>
        let pw1 := r3.span isGoRegexSpace
        if pw1.1 = [] then none
        else
          let pn := pw1.2.span (fun c => !isGoRegexSpace c)
          if pn.1 = [] then none
          else
            let pw2 := pn.2.span isGoRegexSpace
            if pw2.1 = [] then none
            else
              let pd := pw2.2.span isGoRegexDigit
              if pd.1 = [] then none
              else
                match pd.2 with
                | '.' :: r8 =>
                  let pf := r8.span isGoRegexDigit
                  if pf.2 = ['%'] then some (p1.1, pn.1, pd.1, some pf.1) else none
                | ['%'] => some (p1.1, pn.1, pd.1, none)
                | _ => none
      | _ => none
  | _ => none

/-- The regexp match `^(.+):(\d+):\s+(\S+)\s+(\d+\.?\d*)%$` of
parseCoverageOutput: the leading greedy `(.+)` (which cannot cross a
newline) is resolved longest-first with backtracking into
`matchAfterFile`, which is RE2's leftmost-first capture semantics for
this pattern.  The accumulator holds the reversed group-1 prefix. -/
def matchCoverageLineAux : GoStr → GoStr → Option (GoStr × GoStr × GoStr × GoStr × Option GoStr)
  | _, [] => none
  | pre, c :: rest =>
    if c = '\n' then none
    else
      match matchCoverageLineAux (c :: pre) rest with
      | some res => some res
      | none =>
        match matchAfterFile rest with
        | some (d, nm, ip, fp) => some ((c :: pre).reverse, d, nm, ip, fp)
        | none => none

/-- Match one line of `go tool cover -func` output against the pattern of
parseCoverageOutput; captures (file, line digits, name, integer digits,
fractional digits?). -/
def matchCoverageLine (s : GoStr) : Option (GoStr × GoStr × GoStr × GoStr × Option GoStr) :=
  matchCoverageLineAux [] s

/-- strconv.Atoi on a `\d+` capture (always a plain digit run; the
int64-overflow clamping of Atoi is irrelevant for line numbers and not
modelled). -/
def digitsToNat (ds : GoStr) : Nat :=
  ds.foldl (fun n c => n * 10 + (c.toNat - '0'.toNat)) 0

/-- strconv.ParseFloat on a `(\d+\.?\d*)` capture, as an exact rational.
The source never computes with percentages, only compares them, and no
comparison in scope is decided by the float-vs-rational rounding gap. -/
def ratOfDigits (ip : GoStr) (fp : Option GoStr) : ℚ :=
  match fp with
  | none => (digitsToNat ip : ℚ)
  | some f => (digitsToNat ip : ℚ) + (digitsToNat f : ℚ) / (10 : ℚ) ^ f.length

/-- The line sequence bufio.Scanner produces: split on newlines, drop a
final empty fragment (input ending in a newline), strip one trailing
carriage return per line. -/
def splitLines (s : GoStr) : List GoStr :=
  let frags := splitOnChar '\n' s
  let frags := match frags.getLast? with
    | some [] => frags.dropLast
    | _ => frags
  frags.map (fun l =>
    match l.getLast? with
    | some c => if c = '\r' then l.dropLast else l
    | none => l)

/-- The last element of `strings.Split(filePath, "/")`. -/
def lastPathComponent (p : GoStr) : GoStr :=
  (splitOnChar '/' p).getLastD []

/-- The relative-path rewriting of parseCoverageOutput.  `toRel` models
the filepath.Abs(baseDir) + filepath.Rel pipeline (`none` for either
call failing), `fileExists` models the os.Stat probe of
filepath.Join(baseDir, fileName). -/
def rewrittenPath (toRel : GoStr → GoStr → Option GoStr)
    (fileExists : GoStr → GoStr → Bool) (baseDir filePath : GoStr) : GoStr :=
  let relPath := match toRel baseDir filePath with
    | some rel => if strStartsWith (gs "..") rel then filePath else rel
    | none => filePath
  let fileName := lastPathComponent filePath
  if fileExists baseDir fileName then fileName else relPath

/-- The body of parseCoverageOutput's scan loop for one line. -/
def parseLineEntry (baseDir : GoStr) (threshold : ℚ)
    (toRel : GoStr → GoStr → Option GoStr) (fileExists : GoStr → GoStr → Bool)
    (line : GoStr) : Option LowCoverageFunc :=
  if strStartsWith (gs "total:") line then none
  else
    match matchCoverageLine line with
    | none => none
    | some (filePath, d, nm, ip, fp) =>
      let lineNum := digitsToNat d
      let coverage := ratOfDigits ip fp
      if threshold ≤ coverage then none
      else if nm = gs "main" ∨ nm = gs "init" then none
      else
        some { File := rewrittenPath toRel fileExists baseDir filePath,
               Line := lineNum, Name := nm,
               Coverage := coverage, Threshold := threshold }

/-- parseCoverageOutput from the coverage module: the scan loop over the
lines, the sort by (file, line), and the invariably-nil error (second
component). -/
def parseCoverageOutput (output baseDir : GoStr) (threshold : ℚ)
    (toRel : GoStr → GoStr → Option GoStr) (fileExists : GoStr → GoStr → Bool) :
    List LowCoverageFunc × Option GoStr :=
  let result := (splitLines output).filterMap (parseLineEntry baseDir threshold toRel fileExists)
  (List.insertionSort (byKeyLe LowCoverageFunc.File LowCoverageFunc.Line) result, none)

/-- The low-coverage orchestration of main.go: analyzeCoverage (whose
parsing stage is parseCoverageOutput applied to the captured tool
output) runs only when the threshold flag is positive; otherwise
AnalysisResult.LowCoverageFuncs stays empty. -/
def lowCoverageReport (output baseDir : GoStr) (threshold : ℚ)
    (toRel : GoStr → GoStr → Option GoStr) (fileExists : GoStr → GoStr → Bool) :
    List LowCoverageFunc :=
  if 0 < threshold then (parseCoverageOutput output baseDir threshold toRel fileExists).1
  else []

/-! Order facts about the sort comparator. -/

theorem strLtB_cons_iff (a b : Char) (as bs : GoStr) :
    strLtB (a :: as) (b :: bs) = true ↔
      a.toNat < b.toNat ∨ (a.toNat = b.toNat ∧ strLtB as bs = true) := by
  by_cases h1 : a.toNat < b.toNat
  · simp [strLtB, h1]
  · by_cases h2 : b.toNat < a.toNat
    · have h3 : ¬ a.toNat = b.toNat := by omega
      simp [strLtB, h1, h2, h3]
    · have h3 : a.toNat = b.toNat := by omega
      simp [strLtB, h1, h2, h3]

theorem strLtB_irrefl : ∀ a : GoStr, strLtB a a = false
  | [] => rfl
  | c :: cs => by
    have ih := strLtB_irrefl cs
    by_cases h : strLtB (c :: cs) (c :: cs) = true
    · rw [strLtB_cons_iff] at h
      rcases h with h | ⟨_, h⟩
      · omega
      · rw [ih] at h; exact absurd h (by simp)
    · simpa using h

theorem strLtB_trans : ∀ a b c : GoStr,
    strLtB a b = true → strLtB b c = true → strLtB a c = true
  | [], [], _, h1, _ => by simp [strLtB] at h1
  | [], _ :: _, [], _, h2 => by simp [strLtB] at h2
  | [], _ :: _, _ :: _, _, _ => by simp [strLtB]
  | _ :: _, [], _, h1, _ => by simp [strLtB] at h1
  | _ :: _, _ :: _, [], _, h2 => by simp [strLtB] at h2
  | a :: as, b :: bs, c :: cs, h1, h2 => by
    rw [strLtB_cons_iff] at h1 h2 ⊢
    rcases h1 with h1 | ⟨h1e, h1r⟩
    · rcases h2 with h2 | ⟨h2e, _⟩
      · exact Or.inl (by omega)
      · exact Or.inl (by omega)
    · rcases h2 with h2 | ⟨h2e, h2r⟩
      · exact Or.inl (by omega)
      · exact Or.inr ⟨by omega, strLtB_trans as bs cs h1r h2r⟩

theorem strLtB_connex : ∀ a b : GoStr, strLtB a b = true ∨ strLtB b a = true ∨ a = b
  | [], [] => Or.inr (Or.inr rfl)
  | [], _ :: _ => Or.inl (by simp [strLtB])
  | _ :: _, [] => Or.inr (Or.inl (by simp [strLtB]))
  | a :: as, b :: bs => by
    rcases Nat.lt_trichotomy a.toNat b.toNat with h | h | h
    · exact Or.inl ((strLtB_cons_iff a b as bs).mpr (Or.inl h))
    · have hab : a = b := Char.ext (UInt32.toNat.inj h)
      rcases strLtB_connex as bs with h2 | h2 | h2
      · exact Or.inl ((strLtB_cons_iff a b as bs).mpr (Or.inr ⟨h, h2⟩))
      · exact Or.inr (Or.inl ((strLtB_cons_iff b a bs as).mpr (Or.inr ⟨h.symm, h2⟩)))
      · exact Or.inr (Or.inr (by rw [hab, h2]))
    · exact Or.inr (Or.inl ((strLtB_cons_iff b a bs as).mpr (Or.inl h)))

theorem strLtB_asymm {a b : GoStr} (h : strLtB a b = true) : strLtB b a = false := by
  by_cases h2 : strLtB b a = true
  · have := strLtB_trans a b a h h2
    rw [strLtB_irrefl] at this
    exact absurd this (by simp)
  · simpa using h2

instance {α : Type} (kf : α → GoStr) (kn : α → Nat) : IsTotal α (byKeyLe kf kn) where
  total a b := by
    rcases strLtB_connex (kf a) (kf b) with h | h | h
    · exact Or.inl (Or.inl h)
    · exact Or.inr (Or.inl h)
    · rcases Nat.le_total (kn a) (kn b) with h2 | h2
      · exact Or.inl (Or.inr ⟨h, h2⟩)
      · exact Or.inr (Or.inr ⟨h.symm, h2⟩)

instance {α : Type} (kf : α → GoStr) (kn : α → Nat) : IsTrans α (byKeyLe kf kn) where
  trans a b c hab hbc := by
    rcases hab with h1 | ⟨h1e, h1n⟩
    · rcases hbc with h2 | ⟨h2e, _⟩
      · exact Or.inl (strLtB_trans _ _ _ h1 h2)
      · exact Or.inl (h2e ▸ h1)
    · rcases hbc with h2 | ⟨h2e, h2n⟩
      · exact Or.inl (h1e ▸ h2)
      · exact Or.inr ⟨h1e.trans h2e, h1n.trans h2n⟩

theorem byKeyLe_antisymm_keys {α : Type} {kf : α → GoStr} {kn : α → Nat} {a b : α}
    (h1 : byKeyLe kf kn a b) (h2 : byKeyLe kf kn b a) : kf a = kf b ∧ kn a = kn b := by
  rcases h1 with h1 | ⟨h1e, h1n⟩
  · rcases h2 with h2 | ⟨h2e, _⟩
    · have := strLtB_asymm h1
      rw [this] at h2; exact absurd h2 (by simp)
    · rw [h2e] at h1
      rw [strLtB_irrefl] at h1; exact absurd h1 (by simp)
  · rcases h2 with h2 | ⟨_, h2n⟩
    · rw [h1e] at h2
      rw [strLtB_irrefl] at h2; exact absurd h2 (by simp)
    · exact ⟨h1e, Nat.le_antisymm h1n h2n⟩

/-- Two sorted lists that are permutations of each other and whose
elements are determined by their (string, number) sort keys are equal. -/
theorem eq_of_perm_of_sorted_keyed {α : Type} (kf : α → GoStr) (kn : α → Nat) :
    ∀ {l₁ l₂ : List α}, List.Perm l₁ l₂ →
      l₁.Sorted (byKeyLe kf kn) → l₂.Sorted (byKeyLe kf kn) →
      (∀ a ∈ l₁, ∀ b ∈ l₁, kf a = kf b → kn a = kn b → a = b) → l₁ = l₂
  | [], l₂, hp, _, _, _ => (List.perm_nil.mp hp.symm).symm
  | a :: t₁, [], hp, _, _, _ => absurd hp (by simp)
  | a :: t₁, b :: t₂, hp, hs₁, hs₂, hinj => by
    have hab : a = b := by
      have hbmem : b ∈ a :: t₁ := hp.mem_iff.mpr (by simp)
      have hamem : a ∈ b :: t₂ := hp.mem_iff.mp (by simp)
      rcases List.mem_cons.mp hbmem with h | h
      · exact h.symm
      · have h1 : byKeyLe kf kn a b := List.rel_of_sorted_cons hs₁ b h
        rcases List.mem_cons.mp hamem with h2 | h2
        · exact h2
        · have h2 : byKeyLe kf kn b a := List.rel_of_sorted_cons hs₂ a h2
          obtain ⟨he, hn⟩ := byKeyLe_antisymm_keys h1 h2
          exact hinj a (by simp) b (by simp [h]) he hn
    subst hab
    have htp : List.Perm t₁ t₂ := hp.cons_inv
    have := eq_of_perm_of_sorted_keyed kf kn htp hs₁.of_cons hs₂.of_cons
      (fun x hx y hy => hinj x (by simp [hx]) y (by simp [hy]))
    rw [this]

/-! Spec-side comparison definitions and shared helper lemmas. -/

/-- Modelled from the spec's words for the naming-convention stage
(§4.5 step 2): strip the test-prefix and a single following underscore,
split the remainder on underscores, and try the non-empty candidates
rightmost-first.  Used only to compare against
`extractFunctionNamesFromTest`, which is translated from the source. -/
def candidateNamesSpec (s : GoStr) : List GoStr :=
  let n := if strStartsWith (gs "_") s then s.drop 1 else s
  (splitOnChar '_' n).reverse.filter (fun p => p ≠ [])

/-- Modelled from the spec's words for the fallback skip condition: the
target itself, or its base after the last underscore (when the
underscore sits at a positive index), is in the properly-tested set. -/
def skippedTargetSpec (props : List GoStr) (c : GoStr) : Prop :=
  c ∈ props ∨ ∃ b, baseAfterLastUS c = some b ∧ b ∈ props

/-- The target key of a node, when the node is a call expression that
resolves to a non-empty key. -/
def callKeyOf (n : GoExpr) : Option GoStr :=
  match n with
  | GoExpr.call fn args =>
    let k := extractFuncNameFromCall (GoExpr.call fn args)
    if k = [] then none else some k
  | _ => none

/-- First-occurrence deduplication, excluding an initial `seen` set. -/
def firstDedupFrom (seen : List GoStr) : List GoStr → List GoStr
  | [] => []
  | x :: xs =>
    if x ∈ seen then firstDedupFrom seen xs
    else x :: firstDedupFrom (x :: seen) xs

/-- The coverage entry a single line parses to (stamped with the
configured threshold), before the threshold and main/init filtering. -/
def fullLineEntry (baseDir : GoStr) (threshold : ℚ)
    (toRel : GoStr → GoStr → Option GoStr) (fileExists : GoStr → GoStr → Bool)
    (line : GoStr) : Option LowCoverageFunc :=
  if strStartsWith (gs "total:") line then none
  else
    match matchCoverageLine line with
    | none => none
    | some (filePath, d, nm, ip, fp) =>
      some { File := rewrittenPath toRel fileExists baseDir filePath,
             Line := digitsToNat d, Name := nm,
             Coverage := ratOfDigits ip fp, Threshold := threshold }

/-- All coverage entries the line pattern parses out of the tool output,
before the threshold and main/init filtering — the "parsed coverage
entries" of the spec. -/
def parsedCoverageEntries (output baseDir : GoStr) (threshold : ℚ)
    (toRel : GoStr → GoStr → Option GoStr) (fileExists : GoStr → GoStr → Bool) :
    List LowCoverageFunc :=
  (splitLines output).filterMap (fullLineEntry baseDir threshold toRel fileExists)

theorem strStartsWith_append (p s : GoStr) : strStartsWith p (p ++ s) = true := by
  induction p with
  | nil => rfl
  | cons c cs ih => simp [strStartsWith, ih]

theorem strEndsWith_append (t s : GoStr) : strEndsWith t (s ++ t) = true := by
  unfold strEndsWith
  rw [List.reverse_append]
  exact strStartsWith_append t.reverse s.reverse

theorem splitOnChar_ne_nil (sep : Char) (s : GoStr) : splitOnChar sep s ≠ [] := by
  cases s with
  | nil => simp [splitOnChar]
  | cons c cs =>
    unfold splitOnChar
    cases h : splitOnChar sep cs with
    | nil => simp
    | cons f fs =>
      by_cases hc : c = sep <;> simp [hc]

theorem splitOnChar_singleton (sep : Char) :
    ∀ (s p : GoStr), splitOnChar sep s = [p] → p = s := by
  intro s
  induction s with
  | nil => intro p h; simp [splitOnChar] at h; exact h
  | cons c cs ih =>
    intro p h
    unfold splitOnChar at h
    cases hs : splitOnChar sep cs with
    | nil => exact absurd hs (splitOnChar_ne_nil sep cs)
    | cons f fs =>
      rw [hs] at h
      by_cases hc : c = sep
      · simp [hc] at h
      · simp [hc] at h
        obtain ⟨hp, hfs⟩ := h
        subst hfs
        rw [ih f hs] at hp
        exact hp.symm

/-! Claim C3: the two-file scenario. -/

/-- Scenario fixture: a.go declares FuncA, b.go declares FuncB. -/
def scenarioFuncsC3 : List (GoStr × List FuncInfo) :=
  [(gs "a.go", [{ Name := gs "FuncA", File := gs "a.go", Line := 3, Receiver := [] }]),
   (gs "b.go", [{ Name := gs "FuncB", File := gs "b.go", Line := 3, Receiver := [] }])]

/-- Scenario fixture: TestFuncA in a_test.go calling FuncA. -/
def testFuncA : TestInfo :=
  { Name := gs "TestFuncA", File := gs "a_test.go", Line := 5, CalledFuncs := [gs "FuncA"] }

/-- Scenario fixture: TestFuncB in a_test.go calling FuncB. -/
def testFuncB : TestInfo :=
  { Name := gs "TestFuncB", File := gs "a_test.go", Line := 15, CalledFuncs := [gs "FuncB"] }

/-- Scenario fixture: the single test file a_test.go holding both tests. -/
def scenarioTestsC3 : List (GoStr × List TestInfo) :=
  [(gs "a_test.go", [testFuncA, testFuncB])]

/-- C3: with FuncA in a.go, FuncB in b.go, and a_test.go holding
TestFuncA (calling FuncA) and TestFuncB (calling FuncB), the analysis
reports exactly one misplacement — TestFuncB, actual a_test.go,
expected b_test.go — and nothing for TestFuncA. -/
theorem claim3_scenario_single_misplacement :
    findMisplacedTests scenarioTestsC3 scenarioFuncsC3 =
      [{ Test := testFuncB, ExpectedFile := gs "b_test.go", ActualFile := gs "a_test.go" }] := by
  decide

/-! Claim C4: the call resolver's case analysis. -/

/-- Callee shapes other than a bare identifier or a selector (function
literals, function-valued call results, other literals). -/
def otherCalleeShape : GoExpr → Prop
  | GoExpr.ident _ => False
  | GoExpr.selector _ _ => False
  | _ => True

theorem foldl_collectCallStep (ns : List GoExpr) : ∀ seen acc : List GoStr,
    (ns.foldl collectCallStep (seen, acc)).2 =
      acc ++ firstDedupFrom seen (ns.filterMap callKeyOf) := by
  induction ns with
  | nil => intro seen acc; simp [firstDedupFrom]
  | cons n rest ih =>
    intro seen acc
    cases n with
    | ident nm => simpa [collectCallStep, callKeyOf] using ih seen acc
    | selector x s => simpa [collectCallStep, callKeyOf] using ih seen acc
    | funcLit b => simpa [collectCallStep, callKeyOf] using ih seen acc
    | basicLit v => simpa [collectCallStep, callKeyOf] using ih seen acc
    | call fn args =>
      by_cases hk : extractFuncNameFromCall (GoExpr.call fn args) = []
      · simpa [collectCallStep, callKeyOf, hk] using ih seen acc
      · have hck : callKeyOf (GoExpr.call fn args) =
            some (extractFuncNameFromCall (GoExpr.call fn args)) := by
          simp [callKeyOf, hk]
        by_cases hs : extractFuncNameFromCall (GoExpr.call fn args) ∈ seen
        · have hstep : collectCallStep (seen, acc) (GoExpr.call fn args) = (seen, acc) := by
            simp [collectCallStep, hs]
          rw [List.foldl_cons, hstep, ih, List.filterMap_cons, hck]
          simp [firstDedupFrom, hs]
        · have hstep : collectCallStep (seen, acc) (GoExpr.call fn args) =
              (extractFuncNameFromCall (GoExpr.call fn args) :: seen,
               acc ++ [extractFuncNameFromCall (GoExpr.call fn args)]) := by
            simp only [collectCallStep]
            rw [if_pos ⟨hk, hs⟩]
          rw [List.foldl_cons, hstep, ih, List.filterMap_cons, hck]
          simp [firstDedupFrom, hs]

theorem firstDedupFrom_not_mem_seen :
    ∀ (l seen : List GoStr), ∀ x ∈ firstDedupFrom seen l, x ∉ seen := by
  intro l
  induction l with
  | nil => intro seen x hx; simp [firstDedupFrom] at hx
  | cons a as ih =>
    intro seen x hx
    unfold firstDedupFrom at hx
    by_cases ha : a ∈ seen
    · rw [if_pos ha] at hx
      exact ih seen x hx
    · rw [if_neg ha] at hx
      rcases List.mem_cons.mp hx with h | h
      · rw [h]; exact ha
      · have := ih (a :: seen) x h
        intro hc
        exact this (List.mem_cons_of_mem a hc)

theorem firstDedupFrom_nodup : ∀ (l seen : List GoStr), (firstDedupFrom seen l).Nodup := by
  intro l
  induction l with
  | nil => intro seen; simp [firstDedupFrom]
  | cons a as ih =>
    intro seen
    unfold firstDedupFrom
    by_cases ha : a ∈ seen
    · rw [if_pos ha]; exact ih seen
    · rw [if_neg ha]
      refine List.nodup_cons.mpr ⟨?_, ih (a :: seen)⟩
      intro hc
      exact firstDedupFrom_not_mem_seen as (a :: seen) a hc (List.mem_cons_self a seen)

theorem firstDedupFrom_subset : ∀ (l seen : List GoStr), firstDedupFrom seen l ⊆ l := by
  intro l
  induction l with
  | nil => intro seen; simp [firstDedupFrom]
  | cons a as ih =>
    intro seen x hx
    unfold firstDedupFrom at hx
    by_cases ha : a ∈ seen
    · rw [if_pos ha] at hx
      exact List.mem_cons_of_mem a (ih seen hx)
    · rw [if_neg ha] at hx
      rcases List.mem_cons.mp hx with h | h
      · exact h ▸ List.mem_cons_self a as
      · exact List.mem_cons_of_mem a (ih (a :: seen) h)

theorem extractCalledFunctions_eq_dedup (stmts : List GoExpr) :
    extractCalledFunctions (some stmts) =
      firstDedupFrom [] ((walkNodesList stmts).filterMap callKeyOf) := by
  rw [show extractCalledFunctions (some stmts) =
    (List.foldl collectCallStep (([] : List GoStr), ([] : List GoStr))
      (walkNodesList stmts)).2 from rfl]
  rw [foldl_collectCallStep]
  simp

/-- C4: the bare-identifier, selector-over-identifier,
selector-over-selector, and remaining callee shapes resolve exactly as
the spec states, and the empty key produced in the last case is always
skipped (it never reaches a calledTargets list). -/
theorem claim4_call_resolver_shapes :
    (∀ (n : GoStr) (args : List GoExpr),
       extractFuncNameFromCall (GoExpr.call (GoExpr.ident n) args) = n) ∧
    (∀ (recvName selName : GoStr) (args : List GoExpr),
       extractFuncNameFromCall
         (GoExpr.call (GoExpr.selector (GoExpr.ident recvName) selName) args) =
         recvName ++ '_' :: selName) ∧
    (∀ (x : GoExpr) (s selName : GoStr) (args : List GoExpr),
       extractFuncNameFromCall
         (GoExpr.call (GoExpr.selector (GoExpr.selector x s) selName) args) = selName) ∧
    (∀ (fn : GoExpr) (args : List GoExpr), otherCalleeShape fn →
       extractFuncNameFromCall (GoExpr.call fn args) = []) ∧
    (∀ body : Option (List GoExpr), [] ∉ extractCalledFunctions body) := by
  refine ⟨fun n args => rfl, fun r s args => rfl, fun x s sel args => rfl, ?_, ?_⟩
  · intro fn args h
    cases fn with
    | ident n => exact h.elim
    | selector x s => exact h.elim
    | call f a => rfl
    | funcLit b => rfl
    | basicLit v => rfl
  · intro body
    cases body with
    | none => simp [extractCalledFunctions]
    | some stmts =>
      rw [extractCalledFunctions_eq_dedup]
      intro hmem
      have hk : ([] : GoStr) ∈ (walkNodesList stmts).filterMap callKeyOf :=
        firstDedupFrom_subset _ _ hmem
      rw [List.mem_filterMap] at hk
      obtain ⟨n, _, hn⟩ := hk
      cases n with
      | call fn args =>
        simp only [callKeyOf] at hn
        by_cases hk2 : extractFuncNameFromCall (GoExpr.call fn args) = []
        · rw [if_pos hk2] at hn
          exact absurd hn (by simp)
        · rw [if_neg hk2] at hn
          exact hk2 (Option.some.inj hn)
      | ident nm => exact absurd hn (by simp [callKeyOf])
      | selector x s => exact absurd hn (by simp [callKeyOf])
      | funcLit b => exact absurd hn (by simp [callKeyOf])
      | basicLit v => exact absurd hn (by simp [callKeyOf])

/-- C4 witness: the four shape clauses evaluated at concrete calls, with
the other-shape hypothesis discharged at a function literal. -/
theorem claim4_call_resolver_shapes_witness :
    extractFuncNameFromCall (GoExpr.call (GoExpr.ident (gs "foo")) []) = gs "foo" ∧
    extractFuncNameFromCall
      (GoExpr.call (GoExpr.selector (GoExpr.ident (gs "obj")) (gs "M")) []) = gs "obj_M" ∧
    extractFuncNameFromCall
      (GoExpr.call (GoExpr.selector (GoExpr.selector (GoExpr.ident (gs "a")) (gs "b"))
        (gs "M")) []) = gs "M" ∧
    extractFuncNameFromCall (GoExpr.call (GoExpr.funcLit []) []) = [] :=
  ⟨by have := claim4_call_resolver_shapes.1 (gs "foo") []; simpa using this,
   by have := claim4_call_resolver_shapes.2.1 (gs "obj") (gs "M") []; simpa using this,
   by have := claim4_call_resolver_shapes.2.2.1 (GoExpr.ident (gs "a")) (gs "b") (gs "M") [];
      simpa using this,
   claim4_call_resolver_shapes.2.2.2.1 (GoExpr.funcLit []) [] trivial⟩

/-! Claim C8: calledTargets order and deduplication. -/

/-- C8: a routine's calledTargets list is the first-occurrence
deduplication of the raw target-key sequence of the body walk (hence
holds no duplicates), and a nil or empty body yields the empty list. -/
theorem claim8_calledTargets_first_occurrence :
    (∀ stmts : List GoExpr,
       extractCalledFunctions (some stmts) =
         firstDedupFrom [] ((walkNodesList stmts).filterMap callKeyOf)) ∧
    (∀ body : Option (List GoExpr), (extractCalledFunctions body).Nodup) ∧
    extractCalledFunctions none = [] ∧
    extractCalledFunctions (some []) = [] := by
  refine ⟨extractCalledFunctions_eq_dedup, ?_, rfl, rfl⟩
  intro body
  cases body with
  | none => simp [extractCalledFunctions]
  | some stmts =>
    rw [extractCalledFunctions_eq_dedup]
    exact firstDedupFrom_nodup _ _

/-! Claim C9: the suffix check of isFunctionTested is receiver-blind. -/

/-- C9: any tested key ending in `_Name` marks a declaration named
`Name` as tested, with no condition on the declaration's receiver — in
particular one qualified call key `x_Name` suffices — and a tested
declaration never appears in the untested output. -/
theorem claim9_suffix_match_any_receiver :
    (∀ (testedFuncs : List GoStr) (k : GoStr) (f : FuncInfo),
       k ∈ testedFuncs → strEndsWith ('_' :: f.Name) k = true →
       isFunctionTested f testedFuncs = true) ∧
    (∀ (x : GoStr) (f : FuncInfo) (testedFuncs : List GoStr),
       (x ++ '_' :: f.Name) ∈ testedFuncs → isFunctionTested f testedFuncs = true) ∧
    (∀ (f : FuncInfo) (testedFuncs : List GoStr)
       (fileFunctions : List (GoStr × List FuncInfo))
       (coverageMap : Option (List (GoStr × ℚ))),
       isFunctionTested f testedFuncs = true →
       f ∉ findFunctionsWithoutTests fileFunctions testedFuncs coverageMap) := by
  have base : ∀ (testedFuncs : List GoStr) (k : GoStr) (f : FuncInfo),
      k ∈ testedFuncs → strEndsWith ('_' :: f.Name) k = true →
      isFunctionTested f testedFuncs = true := by
    intro tested k f hk hsuf
    simp only [isFunctionTested, Bool.or_eq_true]
    exact Or.inr (List.any_eq_true.mpr ⟨k, hk, hsuf⟩)
  refine ⟨base, ?_, ?_⟩
  · intro x f tested hmem
    exact base tested (x ++ '_' :: f.Name) f hmem (strEndsWith_append _ _)
  · intro f tested ffs cov htested hmem
    simp only [findFunctionsWithoutTests] at hmem
    have hmem2 := (List.perm_insertionSort _ _).mem_iff.mp hmem
    rw [List.mem_flatMap] at hmem2
    obtain ⟨sf, _, hf⟩ := hmem2
    have hp := (List.mem_filter.mp hf).2
    rw [Bool.and_eq_true] at hp
    rw [htested] at hp
    exact absurd hp.1 (by simp)

/-- C9 witness: a single qualified call key `svc_Handle` marks the
receiver-less declaration `Handle` as tested and keeps it out of the
untested output. -/
theorem claim9_suffix_match_any_receiver_witness :
    ((gs "svc" ++ '_' :: (gs "Handle")) ∈ [gs "svc_Handle"] ∧
     isFunctionTested
       { Name := gs "Handle", File := gs "h.go", Line := 2, Receiver := [] }
       [gs "svc_Handle"] = true) ∧
    ({ Name := gs "Handle", File := gs "h.go", Line := 2, Receiver := [] } : FuncInfo) ∉
      findFunctionsWithoutTests
        [(gs "h.go", [{ Name := gs "Handle", File := gs "h.go", Line := 2, Receiver := [] }])]
        [gs "svc_Handle"] none := by
  have h1 : (gs "svc" ++ '_' :: (gs "Handle")) ∈ [gs "svc_Handle"] := by decide
  have h2 := claim9_suffix_match_any_receiver.2.1 (gs "svc")
    { Name := gs "Handle", File := gs "h.go", Line := 2, Receiver := [] } [gs "svc_Handle"] h1
  exact ⟨⟨h1, h2⟩, claim9_suffix_match_any_receiver.2.2 _ _
    [(gs "h.go", [{ Name := gs "Handle", File := gs "h.go", Line := 2, Receiver := [] }])]
    none h2⟩

/-! Claim C10: the coverage parser never fails. -/

/-- C10: parseCoverageOutput's error component is `none` for every
input, and a line that carries the total: marker or fails the line
pattern contributes nothing to the scan (it is skipped, not an
error). -/
theorem claim10_parse_error_free :
    (∀ (output baseDir : GoStr) (threshold : ℚ)
       (toRel : GoStr → GoStr → Option GoStr) (fileExists : GoStr → GoStr → Bool),
       (parseCoverageOutput output baseDir threshold toRel fileExists).2 = none) ∧
    (∀ (baseDir : GoStr) (threshold : ℚ)
       (toRel : GoStr → GoStr → Option GoStr) (fileExists : GoStr → GoStr → Bool)
       (line : GoStr) (rest : List GoStr),
       strStartsWith (gs "total:") line = true ∨ matchCoverageLine line = none →
       (line :: rest).filterMap (parseLineEntry baseDir threshold toRel fileExists) =
         rest.filterMap (parseLineEntry baseDir threshold toRel fileExists)) := by
  refine ⟨fun _ _ _ _ _ => rfl, ?_⟩
  intro baseDir threshold toRel fileExists line rest h
  have hnone : parseLineEntry baseDir threshold toRel fileExists line = none := by
    rcases h with h | h
    · simp [parseLineEntry, h]
    · unfold parseLineEntry
      by_cases ht : strStartsWith (gs "total:") line = true
      · simp [ht]
      · simp only [ht, if_false, Bool.false_eq_true, h]
  simp [List.filterMap_cons, hnone]

/-- C10 witness: the parser returns a nil error on garbage mixed with a
total line, and a non-matching line drops out of the scan. -/
theorem claim10_parse_error_free_witness :
    (parseCoverageOutput (gs "garbage\ntotal:\t(statements)\t80.0%") (gs ".") 50
       (fun _ _ => none) (fun _ _ => false)).2 = none ∧
    [gs "garbage"].filterMap (parseLineEntry (gs ".") 50 (fun _ _ => none) (fun _ _ => false)) =
      ([] : List GoStr).filterMap (parseLineEntry (gs ".") 50 (fun _ _ => none) (fun _ _ => false)) :=
  ⟨claim10_parse_error_free.1 _ _ _ _ _,
   claim10_parse_error_free.2 (gs ".") 50 (fun _ _ => none) (fun _ _ => false)
     (gs "garbage") [] (Or.inr (by decide))⟩

/-! Claim C5: the 50% coverage suppression in findFunctionsWithoutTests. -/

/-- C5: for a declaration that fails every direct-call check, a supplied
coverage map excludes it from the untested output exactly when it maps
the plain name to at least 50; below 50, or with no entry, the
declaration stays in the output. -/
theorem claim5_coverage_suppression :
    ∀ (fileFunctions : List (GoStr × List FuncInfo)) (testedFuncs : List GoStr)
      (covMap : List (GoStr × ℚ)) (sf : GoStr × List FuncInfo) (f : FuncInfo),
      sf ∈ fileFunctions → f ∈ sf.2 → isFunctionTested f testedFuncs = false →
      ((∀ c : ℚ, lookupMap covMap f.Name = some c → 50 ≤ c →
          f ∉ findFunctionsWithoutTests fileFunctions testedFuncs (some covMap)) ∧
       (∀ c : ℚ, lookupMap covMap f.Name = some c → c < 50 →
          f ∈ findFunctionsWithoutTests fileFunctions testedFuncs (some covMap)) ∧
       (lookupMap covMap f.Name = none →
          f ∈ findFunctionsWithoutTests fileFunctions testedFuncs (some covMap))) := by
  intro ffs tested covMap sf f hsf hf htested
  refine ⟨?_, ?_, ?_⟩
  · intro c hc hge hmem
    simp only [findFunctionsWithoutTests] at hmem
    have h2 := (List.perm_insertionSort _ _).mem_iff.mp hmem
    rw [List.mem_flatMap] at h2
    obtain ⟨sf2, _, hf2⟩ := h2
    have hp := (List.mem_filter.mp hf2).2
    rw [Bool.and_eq_true] at hp
    have hcovp := hp.2
    rw [hc] at hcovp
    exact absurd (of_decide_eq_true hcovp) (not_lt.mpr hge)
  · intro c hc hlt
    simp only [findFunctionsWithoutTests]
    refine (List.perm_insertionSort _ _).mem_iff.mpr ?_
    refine List.mem_flatMap.mpr ⟨sf, hsf, List.mem_filter.mpr ⟨hf, ?_⟩⟩
    rw [Bool.and_eq_true, htested]
    exact ⟨rfl, by rw [hc]; exact decide_eq_true hlt⟩
  · intro hc
    simp only [findFunctionsWithoutTests]
    refine (List.perm_insertionSort _ _).mem_iff.mpr ?_
    refine List.mem_flatMap.mpr ⟨sf, hsf, List.mem_filter.mpr ⟨hf, ?_⟩⟩
    rw [Bool.and_eq_true, htested]
    exact ⟨rfl, by rw [hc]⟩

/-- C5 witness: the declaration Util in u.go, untested by direct calls,
is suppressed at 75% coverage, reported at 25%, and reported when the
map has no entry for it. -/
theorem claim5_coverage_suppression_witness :
    (⟨gs "Util", gs "u.go", 1, []⟩ : FuncInfo) ∉
      findFunctionsWithoutTests [(gs "u.go", [⟨gs "Util", gs "u.go", 1, []⟩])] []
        (some [(gs "Util", 75)]) ∧
    (⟨gs "Util", gs "u.go", 1, []⟩ : FuncInfo) ∈
      findFunctionsWithoutTests [(gs "u.go", [⟨gs "Util", gs "u.go", 1, []⟩])] []
        (some [(gs "Util", 25)]) ∧
    (⟨gs "Util", gs "u.go", 1, []⟩ : FuncInfo) ∈
      findFunctionsWithoutTests [(gs "u.go", [⟨gs "Util", gs "u.go", 1, []⟩])] []
        (some []) :=
  ⟨(claim5_coverage_suppression [(gs "u.go", [⟨gs "Util", gs "u.go", 1, []⟩])] []
      [(gs "Util", 75)] (gs "u.go", [⟨gs "Util", gs "u.go", 1, []⟩])
      ⟨gs "Util", gs "u.go", 1, []⟩ (by decide) (by decide) (by decide)).1 75
      (by decide) (by decide),
   (claim5_coverage_suppression [(gs "u.go", [⟨gs "Util", gs "u.go", 1, []⟩])] []
      [(gs "Util", 25)] (gs "u.go", [⟨gs "Util", gs "u.go", 1, []⟩])
      ⟨gs "Util", gs "u.go", 1, []⟩ (by decide) (by decide) (by decide)).2.1 25
      (by decide) (by decide),
   (claim5_coverage_suppression [(gs "u.go", [⟨gs "Util", gs "u.go", 1, []⟩])] []
      [] (gs "u.go", [⟨gs "Util", gs "u.go", 1, []⟩])
      ⟨gs "Util", gs "u.go", 1, []⟩ (by decide) (by decide) (by decide)).2.2
      (by decide)⟩

/-! Claim C1: the naming-convention stage. -/

theorem codeCandidates_eq_spec (n : GoStr) :
    (if n = [] then []
     else
       let parts := splitOnChar '_' n
       if parts.length = 1 then parts else parts.reverse.filter (fun p => p ≠ [])) =
    (splitOnChar '_' n).reverse.filter (fun p => p ≠ []) := by
  by_cases h0 : n = []
  · subst h0; decide
  · rw [if_neg h0]
    by_cases hlen : (splitOnChar '_' n).length = 1
    · obtain ⟨p, hp⟩ := List.length_eq_one.mp hlen
      have hpn := splitOnChar_singleton '_' n p hp
      subst hpn
      rw [hp]
      simp [h0]
    · simp only [hlen, if_false]

/-- Fixture: a.go declares Foo; b.go declares Bar and Baz. -/
def benchFuncsC1 : List (GoStr × List FuncInfo) :=
  [(gs "a.go", [⟨gs "Foo", gs "a.go", 1, []⟩]),
   (gs "b.go", [⟨gs "Bar", gs "b.go", 1, []⟩, ⟨gs "Baz", gs "b.go", 2, []⟩])]

/-- Fixture: a benchmark routine in b_test.go calling Foo, Bar, Baz. -/
def benchTestC1 : TestInfo :=
  { Name := gs "BenchmarkFoo", File := gs "b_test.go", Line := 1,
    CalledFuncs := [gs "Foo", gs "Bar", gs "Baz"] }

/-- Fixture: only b.go declares anything (Bar). -/
def fallbackFuncsC1 : List (GoStr × List FuncInfo) :=
  [(gs "b.go", [⟨gs "Bar", gs "b.go", 1, []⟩])]

/-- Fixture: TestFoo in a_test.go calling Foo and Bar. -/
def fallbackTestC1 : TestInfo :=
  { Name := gs "TestFoo", File := gs "a_test.go", Line := 1,
    CalledFuncs := [gs "Foo", gs "Bar"] }

/-- C1 counterexample.  First: the naming stage recognizes only the
"Test" prefix — for BenchmarkFoo (a recognized test routine with
non-empty called targets) it produces no candidates at all, the resolver
goes straight to call counting and reports nothing, although the claimed
candidate "Foo" would have resolved to a.go (so the claim predicts a
misplacement report for a routine living in b_test.go).  Second: for
TestFoo calling {Foo, Bar} with only Bar declared anywhere, the
candidate "Foo" does match the called target "Foo", yet the naming stage
resolves no file and the resolver still falls back to call counting —
refuting "only when no candidate matches any called target". -/
theorem claim1_counterexample :
    isTestFunction (gs "BenchmarkFoo") = true ∧
    extractFunctionNamesFromTest (gs "BenchmarkFoo") = [] ∧
    tryMatchFunctionName (gs "Foo") [] benchTestC1.CalledFuncs benchFuncsC1 = gs "a.go" ∧
    checkTestPlacement benchTestC1 (gs "b_test.go") benchFuncsC1 [] = none ∧
    findSourceByTestName (gs "TestFoo") [gs "Foo", gs "Bar"] fallbackFuncsC1 = [] ∧
    (gs "Foo") ∈ extractFunctionNamesFromTest (gs "TestFoo") ∧
    checkTestPlacement fallbackTestC1 (gs "a_test.go") fallbackFuncsC1 [] =
      some { Test := fallbackTestC1, ExpectedFile := gs "b_test.go",
             ActualFile := gs "a_test.go" } := by
  decide

/-- C1 amended: the naming-convention stage applies only to routines
whose name begins with "Test": for those it strips the prefix and a
single following underscore, splits the remainder on underscores, and
tries the non-empty candidates rightmost (most specific) first; for any
other name (including the Benchmark/Example/Fuzz prefixes) it yields no
candidates.  The resolver falls back to call counting exactly when the
naming stage resolves no source file — observable as the result being
independent of the properly-tested set whenever the naming stage
resolves one. -/
theorem claim1_amended_naming_stage :
    (∀ rest : GoStr,
       extractFunctionNamesFromTest (gs "Test" ++ rest) = candidateNamesSpec rest) ∧
    (∀ testName : GoStr, strStartsWith (gs "Test") testName = false →
       extractFunctionNamesFromTest testName = []) ∧
    (∀ (test : TestInfo) (testFile : GoStr) (fileFunctions : List (GoStr × List FuncInfo))
       (props1 props2 : List GoStr),
       findSourceByTestName test.Name test.CalledFuncs fileFunctions ≠ [] →
       checkTestPlacement test testFile fileFunctions props1 =
         checkTestPlacement test testFile fileFunctions props2) := by
  refine ⟨?_, ?_, ?_⟩
  · intro rest
    have h1 : strStartsWith (gs "Test") (gs "Test" ++ rest) = true := strStartsWith_append _ _
    have hdrop : (gs "Test" ++ rest).drop 4 = rest := List.drop_left (gs "Test") rest
    simp only [extractFunctionNamesFromTest, candidateNamesSpec, h1, if_true, hdrop]
    exact codeCandidates_eq_spec _
  · intro testName h
    simp [extractFunctionNamesFromTest, h]
  · intro test testFile ffs p1 p2 hne
    simp only [checkTestPlacement]
    by_cases hcf : test.CalledFuncs = []
    · rw [if_pos hcf, if_pos hcf]
    · simp only [if_neg hcf, if_neg hne]

/-- C1 amended witness: the clauses evaluated at Test_Foo_Bar, at a
Benchmark name, and at the TestFuncA scenario where the naming stage
resolves a.go so the properly-tested set cannot matter. -/
theorem claim1_amended_naming_stage_witness :
    extractFunctionNamesFromTest (gs "Test" ++ gs "_Foo_Bar") = candidateNamesSpec (gs "_Foo_Bar") ∧
    extractFunctionNamesFromTest (gs "BenchFoo") = [] ∧
    checkTestPlacement testFuncA (gs "a_test.go") scenarioFuncsC3 [gs "X"] =
      checkTestPlacement testFuncA (gs "a_test.go") scenarioFuncsC3 [] :=
  ⟨claim1_amended_naming_stage.1 (gs "_Foo_Bar"),
   claim1_amended_naming_stage.2.1 (gs "BenchFoo") (by decide),
   claim1_amended_naming_stage.2.2 testFuncA (gs "a_test.go") scenarioFuncsC3
     [gs "X"] [] (by decide)⟩

/-! Claim C7: the low-coverage report. -/

theorem parseLineEntry_eq_filter (baseDir : GoStr) (threshold : ℚ)
    (toRel : GoStr → GoStr → Option GoStr) (fileExists : GoStr → GoStr → Bool)
    (line : GoStr) :
    parseLineEntry baseDir threshold toRel fileExists line =
      Option.filter (fun e => decide (e.Coverage < threshold) &&
          !(decide (e.Name = gs "main") || decide (e.Name = gs "init")))
        (fullLineEntry baseDir threshold toRel fileExists line) := by
  unfold parseLineEntry fullLineEntry
  by_cases ht : strStartsWith (gs "total:") line = true
  · simp [ht]
  · rw [if_neg ht, if_neg ht]
    cases hm : matchCoverageLine line with
    | none => simp
    | some tup =>
      obtain ⟨filePath, d, nm, ip, fp⟩ := tup
      dsimp only
      by_cases hcov : threshold ≤ ratOfDigits ip fp
      · rw [if_pos hcov]
        have hd : decide (ratOfDigits ip fp < threshold) = false := by
          simp [not_lt.mpr hcov]
        simp [Option.filter, hd]
      · rw [if_neg hcov]
        have hd : decide (ratOfDigits ip fp < threshold) = true :=
          decide_eq_true (lt_of_not_ge hcov)
        by_cases hnm : nm = gs "main" ∨ nm = gs "init"
        · rw [if_pos hnm]
          rcases hnm with h | h <;> simp [Option.filter, hd, h]
        · rw [if_neg hnm]
          push_neg at hnm
          simp [Option.filter, hd, hnm.1, hnm.2]

theorem filterMap_option_filter {α β : Type} (f : α → Option β) (p : β → Bool) :
    ∀ l : List α,
      (l.filterMap fun a => Option.filter p (f a)) = (l.filterMap f).filter p := by
  intro l
  induction l with
  | nil => rfl
  | cons a as ih =>
    cases hf : f a with
    | none =>
      rw [List.filterMap_cons, List.filterMap_cons, hf]
      dsimp only [Option.filter]
      exact ih
    | some b =>
      rw [List.filterMap_cons, List.filterMap_cons, hf]
      dsimp only [Option.filter]
      by_cases hp : p b = true
      · rw [if_pos hp]
        dsimp only
        rw [List.filter_cons, if_pos hp]
        exact congrArg (fun l => b :: l) ih
      · rw [if_neg hp]
        dsimp only
        rw [List.filter_cons, if_neg hp]
        exact ih

/-- C7: a zero threshold disables the low-coverage report; a positive
threshold makes the report exactly the parsed coverage entries with
percentage strictly below the threshold, excluding main and init,
sorted by file then line; and the report is always sorted. -/
theorem claim7_low_coverage_threshold :
    (∀ (output baseDir : GoStr) (toRel : GoStr → GoStr → Option GoStr)
       (fileExists : GoStr → GoStr → Bool),
       lowCoverageReport output baseDir 0 toRel fileExists = []) ∧
    (∀ (output baseDir : GoStr) (threshold : ℚ) (toRel : GoStr → GoStr → Option GoStr)
       (fileExists : GoStr → GoStr → Bool), 0 < threshold →
       lowCoverageReport output baseDir threshold toRel fileExists =
         List.insertionSort (byKeyLe LowCoverageFunc.File LowCoverageFunc.Line)
           ((parsedCoverageEntries output baseDir threshold toRel fileExists).filter
             (fun e => decide (e.Coverage < threshold) &&
               !(decide (e.Name = gs "main") || decide (e.Name = gs "init"))))) ∧
    (∀ (output baseDir : GoStr) (threshold : ℚ) (toRel : GoStr → GoStr → Option GoStr)
       (fileExists : GoStr → GoStr → Bool),
       (lowCoverageReport output baseDir threshold toRel fileExists).Sorted
         (byKeyLe LowCoverageFunc.File LowCoverageFunc.Line)) := by
  refine ⟨?_, ?_, ?_⟩
  · intro output baseDir toRel fileExists
    simp [lowCoverageReport]
  · intro output baseDir threshold toRel fileExists hθ
    unfold lowCoverageReport
    rw [if_pos hθ]
    have hfun : parseLineEntry baseDir threshold toRel fileExists = fun line =>
        Option.filter (fun e => decide (e.Coverage < threshold) &&
          !(decide (e.Name = gs "main") || decide (e.Name = gs "init")))
          (fullLineEntry baseDir threshold toRel fileExists line) :=
      funext (parseLineEntry_eq_filter baseDir threshold toRel fileExists)
    show List.insertionSort (byKeyLe LowCoverageFunc.File LowCoverageFunc.Line)
        ((splitLines output).filterMap (parseLineEntry baseDir threshold toRel fileExists)) = _
    rw [hfun, filterMap_option_filter]
    rfl
  · intro output baseDir threshold toRel fileExists
    unfold lowCoverageReport
    by_cases hθ : 0 < threshold
    · rw [if_pos hθ]
      exact List.sorted_insertionSort _ _
    · rw [if_neg hθ]
      exact List.sorted_nil

/-- C7 witness: a one-line coverage output evaluated at threshold 0
(disabled) and at threshold 90 (reported as specified). -/
theorem claim7_low_coverage_threshold_witness :
    lowCoverageReport (gs "a.go:10:\tFoo\t85%") (gs ".") 0
      (fun _ _ => none) (fun _ _ => false) = [] ∧
    ((0 : ℚ) < 90 ∧
     lowCoverageReport (gs "a.go:10:\tFoo\t85%") (gs ".") 90
       (fun _ _ => none) (fun _ _ => false) =
       List.insertionSort (byKeyLe LowCoverageFunc.File LowCoverageFunc.Line)
         ((parsedCoverageEntries (gs "a.go:10:\tFoo\t85%") (gs ".") 90
           (fun _ _ => none) (fun _ _ => false)).filter
           (fun e => decide (e.Coverage < 90) &&
             !(decide (e.Name = gs "main") || decide (e.Name = gs "init"))))) :=
  ⟨claim7_low_coverage_threshold.1 _ _ _ _,
   by decide,
   claim7_low_coverage_threshold.2.1 (gs "a.go:10:\tFoo\t85%") (gs ".") 90
     (fun _ _ => none) (fun _ _ => false) (by decide)⟩

/-! Claim C6: output determinism under file-iteration reordering. -/

theorem any_congr_perm {α : Type} {l₁ l₂ : List α} (h : List.Perm l₁ l₂) (g : α → Bool) :
    l₁.any g = l₂.any g := by
  by_cases hb : l₂.any g = true
  · rw [hb, List.any_eq_true]
    rw [List.any_eq_true] at hb
    obtain ⟨x, hx, hg⟩ := hb
    exact ⟨x, h.mem_iff.mpr hx, hg⟩
  · have hb2 : ¬l₁.any g = true := by
      intro hb1
      rw [List.any_eq_true] at hb1
      obtain ⟨x, hx, hg⟩ := hb1
      exact hb (List.any_eq_true.mpr ⟨x, h.mem_iff.mp hx, hg⟩)
    rw [Bool.not_eq_true] at hb hb2
    rw [hb, hb2]

theorem isFunctionTested_perm {t1 t2 : List GoStr} (h : List.Perm t1 t2) (f : FuncInfo) :
    isFunctionTested f t1 = isFunctionTested f t2 := by
  unfold isFunctionTested
  rw [show decide (f.Name ∈ t1) = decide (f.Name ∈ t2) from decide_eq_decide.mpr h.mem_iff,
    show decide ((f.Receiver ++ '_' :: f.Name) ∈ t1) =
      decide ((f.Receiver ++ '_' :: f.Name) ∈ t2) from decide_eq_decide.mpr h.mem_iff,
    any_congr_perm h]

theorem mem_untested_mem_decls {f : FuncInfo} {ffs : List (GoStr × List FuncInfo)}
    {tested : List GoStr} {cov : Option (List (GoStr × ℚ))}
    (hmem : f ∈ findFunctionsWithoutTests ffs tested cov) :
    ∃ sf ∈ ffs, f ∈ sf.2 := by
  simp only [findFunctionsWithoutTests] at hmem
  have h2 := (List.perm_insertionSort _ _).mem_iff.mp hmem
  rw [List.mem_flatMap] at h2
  obtain ⟨sf, hsf, hf⟩ := h2
  exact ⟨sf, hsf, (List.mem_filter.mp hf).1⟩

/-- Fixture: a.go and b.go both declare a function named Foo. -/
def orderFuncsA : List (GoStr × List FuncInfo) :=
  [(gs "a.go", [⟨gs "Foo", gs "a.go", 1, []⟩]),
   (gs "b.go", [⟨gs "Foo", gs "b.go", 1, []⟩])]

/-- Fixture: the same two files in the opposite iteration order. -/
def orderFuncsB : List (GoStr × List FuncInfo) :=
  [(gs "b.go", [⟨gs "Foo", gs "b.go", 1, []⟩]),
   (gs "a.go", [⟨gs "Foo", gs "a.go", 1, []⟩])]

/-- Fixture: TestFoo sits in c_test.go and calls Foo. -/
def orderTestsC6 : List (GoStr × List TestInfo) :=
  [(gs "c_test.go",
    [{ Name := gs "TestFoo", File := gs "c_test.go", Line := 1, CalledFuncs := [gs "Foo"] }])]

/-- C6 counterexample: with Foo declared in both a.go and b.go and
TestFoo (in c_test.go) calling it, permuting the file iteration order
changes the misplacement output — the naming stage resolves to the
first file holding a match (`matches[0]`), so one order reports expected
a_test.go and the other b_test.go.  The claim's "identical ordered
outputs for any two iteration orders" is false for the misplaced-test
list. -/
theorem claim6_counterexample :
    List.Perm orderFuncsA orderFuncsB ∧
    findMisplacedTests orderTestsC6 orderFuncsA ≠ findMisplacedTests orderTestsC6 orderFuncsB := by
  constructor
  · decide
  · decide

/-- C6 amended: permuting the tested-set accumulation or the file list
never changes the untested-declaration output beyond reordering — the
output is a permutation, always sorted by (file, line), and identical
whenever distinct declarations never share a (file, line) key — and the
misplaced-test list is always sorted by (actual file, line); but the
content of the misplaced-test list may depend on the file iteration
order (see the counterexample). -/
theorem claim6_amended_determinism :
    (∀ (fileFunctions : List (GoStr × List FuncInfo)) (t1 t2 : List GoStr)
       (cov : Option (List (GoStr × ℚ))), List.Perm t1 t2 →
       findFunctionsWithoutTests fileFunctions t1 cov =
         findFunctionsWithoutTests fileFunctions t2 cov) ∧
    (∀ (ffs1 ffs2 : List (GoStr × List FuncInfo)) (tested : List GoStr)
       (cov : Option (List (GoStr × ℚ))), List.Perm ffs1 ffs2 →
       List.Perm (findFunctionsWithoutTests ffs1 tested cov)
         (findFunctionsWithoutTests ffs2 tested cov)) ∧
    (∀ (ffs : List (GoStr × List FuncInfo)) (tested : List GoStr)
       (cov : Option (List (GoStr × ℚ))),
       (findFunctionsWithoutTests ffs tested cov).Sorted (byKeyLe FuncInfo.File FuncInfo.Line)) ∧
    (∀ (ffs1 ffs2 : List (GoStr × List FuncInfo)) (tested : List GoStr)
       (cov : Option (List (GoStr × ℚ))), List.Perm ffs1 ffs2 →
       (∀ sf ∈ ffs1, ∀ f ∈ sf.2, ∀ sf2 ∈ ffs1, ∀ g ∈ sf2.2,
          f.File = g.File → f.Line = g.Line → f = g) →
       findFunctionsWithoutTests ffs1 tested cov = findFunctionsWithoutTests ffs2 tested cov) ∧
    (∀ (fts : List (GoStr × List TestInfo)) (ffs : List (GoStr × List FuncInfo)),
       (findMisplacedTests fts ffs).Sorted
         (byKeyLe MisplacedTest.ActualFile (fun m => m.Test.Line))) := by
  have hperm : ∀ (ffs1 ffs2 : List (GoStr × List FuncInfo)) (tested : List GoStr)
      (cov : Option (List (GoStr × ℚ))), List.Perm ffs1 ffs2 →
      List.Perm (findFunctionsWithoutTests ffs1 tested cov)
        (findFunctionsWithoutTests ffs2 tested cov) := by
    intro ffs1 ffs2 tested cov h
    simp only [findFunctionsWithoutTests]
    refine (List.perm_insertionSort _ _).trans (List.Perm.trans ?_
      (List.perm_insertionSort _ _).symm)
    exact h.flatMap_right _
  have hsorted : ∀ (ffs : List (GoStr × List FuncInfo)) (tested : List GoStr)
      (cov : Option (List (GoStr × ℚ))),
      (findFunctionsWithoutTests ffs tested cov).Sorted (byKeyLe FuncInfo.File FuncInfo.Line) := by
    intro ffs tested cov
    simp only [findFunctionsWithoutTests]
    exact List.sorted_insertionSort _ _
  refine ⟨?_, hperm, hsorted, ?_, ?_⟩
  · intro ffs t1 t2 cov h
    simp only [findFunctionsWithoutTests]
    have hpred : (fun f => !isFunctionTested f t1 &&
        (match cov with
         | some m =>
           match lookupMap m f.Name with
           | some c => decide (c < 50)
           | none => true
         | none => true)) = (fun f => !isFunctionTested f t2 &&
        (match cov with
         | some m =>
           match lookupMap m f.Name with
           | some c => decide (c < 50)
           | none => true
         | none => true)) := by
      funext f
      rw [isFunctionTested_perm h]
    rw [hpred]
  · intro ffs1 ffs2 tested cov h hinj
    refine eq_of_perm_of_sorted_keyed FuncInfo.File FuncInfo.Line
      (hperm ffs1 ffs2 tested cov h) (hsorted ffs1 tested cov) (hsorted ffs2 tested cov) ?_
    intro a ha b hb hfe hle
    obtain ⟨sfa, hsfa, hfa⟩ := mem_untested_mem_decls ha
    obtain ⟨sfb, hsfb, hfb⟩ := mem_untested_mem_decls hb
    exact hinj sfa hsfa a hfa sfb hsfb b hfb hfe hle
  · intro fts ffs
    simp only [findMisplacedTests]
    exact List.sorted_insertionSort _ _

/-- C6 amended witness: the clauses applied at the C3 scenario data (a
permuted tested list, the reversed file list with distinct (file, line)
keys) and at the counterexample fixture for sortedness. -/
theorem claim6_amended_determinism_witness :
    findFunctionsWithoutTests scenarioFuncsC3 [gs "FuncA", gs "FuncB"] none =
      findFunctionsWithoutTests scenarioFuncsC3 [gs "FuncB", gs "FuncA"] none ∧
    findFunctionsWithoutTests scenarioFuncsC3 [gs "FuncA"] none =
      findFunctionsWithoutTests [(gs "b.go", [⟨gs "FuncB", gs "b.go", 3, []⟩]),
        (gs "a.go", [⟨gs "FuncA", gs "a.go", 3, []⟩])] [gs "FuncA"] none ∧
    (findMisplacedTests orderTestsC6 orderFuncsA).Sorted
      (byKeyLe MisplacedTest.ActualFile (fun m => m.Test.Line)) :=
  ⟨claim6_amended_determinism.1 scenarioFuncsC3 [gs "FuncA", gs "FuncB"]
     [gs "FuncB", gs "FuncA"] none (by decide),
   claim6_amended_determinism.2.2.2.1 scenarioFuncsC3
     [(gs "b.go", [⟨gs "FuncB", gs "b.go", 3, []⟩]),
      (gs "a.go", [⟨gs "FuncA", gs "a.go", 3, []⟩])] [gs "FuncA"] none
     (by decide) (by decide),
   claim6_amended_determinism.2.2.2.2 orderTestsC6 orderFuncsA⟩

/-! Claim C2: the already-correctly-tested set and the fallback skip. -/

theorem skipProperlyTested_iff_spec (props : List GoStr) (c : GoStr) :
    skipProperlyTested props c = true ↔ skippedTargetSpec props c := by
  unfold skipProperlyTested skippedTargetSpec
  cases h : baseAfterLastUS c <;> simp [h]

theorem skipProperlyTested_nil (c : GoStr) : skipProperlyTested [] c = false := by
  unfold skipProperlyTested
  cases h : baseAfterLastUS c <;> simp [h]

theorem sourceFileCounts_filter_skipped (ffs : List (GoStr × List FuncInfo))
    (props : List GoStr) :
    ∀ (cs : List GoStr) (acc : List (GoStr × Nat)),
      cs.foldl (fun counts cf =>
        if skipProperlyTested props cf then counts
        else ffs.foldl (fun cnts sf =>
          if sf.2.any (fun f => matchesFunctionCall f cf) then bumpCount cnts sf.1 else cnts)
          counts) acc =
      (cs.filter (fun c => !skipProperlyTested props c)).foldl (fun counts cf =>
        if skipProperlyTested [] cf then counts
        else ffs.foldl (fun cnts sf =>
          if sf.2.any (fun f => matchesFunctionCall f cf) then bumpCount cnts sf.1 else cnts)
          counts) acc := by
  intro cs
  induction cs with
  | nil => intro acc; rfl
  | cons c rest ih =>
    intro acc
    rw [List.foldl_cons, List.filter_cons]
    by_cases hs : skipProperlyTested props c = true
    · rw [if_pos hs]
      have hb : (!skipProperlyTested props c) = false := by rw [hs]; rfl
      rw [hb, if_neg (by decide : ¬(false = true))]
      exact ih acc
    · rw [if_neg hs]
      have hb : (!skipProperlyTested props c) = true := by
        rw [Bool.not_eq_true] at hs
        rw [hs]; rfl
      rw [hb, if_pos rfl, List.foldl_cons]
      rw [if_neg (by rw [skipProperlyTested_nil]; decide : ¬skipProperlyTested [] c = true)]
      exact ih _

theorem findPrimarySourceFile_filter (calledFuncs : List GoStr)
    (ffs : List (GoStr × List FuncInfo)) (props : List GoStr) :
    findPrimarySourceFile calledFuncs ffs props =
      findPrimarySourceFile (calledFuncs.filter (fun c => !skipProperlyTested props c)) ffs [] := by
  unfold findPrimarySourceFile sourceFileCounts
  exact congrArg argmaxCount (sourceFileCounts_filter_skipped ffs props calledFuncs [])

theorem mem_buildProperlyTested_iff (fileTests : List (GoStr × List TestInfo))
    (fileFunctions : List (GoStr × List FuncInfo)) (name : GoStr) :
    name ∈ buildProperlyTestedFuncsMap fileTests fileFunctions ↔
      ∃ sf ∈ fileFunctions, ∃ tests,
        lookupMap fileTests (expectedTestFileOf sf.1) = some tests ∧
        ∃ f ∈ sf.2,
          (f.Name ∈ calledKeysWithBases tests ∨ funcKeyOf f ∈ calledKeysWithBases tests) ∧
          (name = f.Name ∨ name = funcKeyOf f) := by
  unfold buildProperlyTestedFuncsMap
  rw [List.mem_flatMap]
  constructor
  · rintro ⟨sf, hsf, hmem⟩
    cases hlk : lookupMap fileTests (expectedTestFileOf sf.1) with
    | none => rw [hlk] at hmem; simp at hmem
    | some tests =>
      rw [hlk] at hmem
      dsimp only at hmem
      rw [List.mem_flatMap] at hmem
      obtain ⟨f, hf, hname⟩ := hmem
      by_cases hc : f.Name ∈ calledKeysWithBases tests ∨ funcKeyOf f ∈ calledKeysWithBases tests
      · rw [if_pos hc] at hname
        refine ⟨sf, hsf, tests, hlk, f, hf, hc, ?_⟩
        rcases List.mem_cons.mp hname with h | h
        · exact Or.inl h
        · rcases List.mem_cons.mp h with h2 | h2
          · exact Or.inr h2
          · simp at h2
      · rw [if_neg hc] at hname
        simp at hname
  · rintro ⟨sf, hsf, tests, hlk, f, hf, hc, hname⟩
    refine ⟨sf, hsf, ?_⟩
    rw [hlk]
    dsimp only
    rw [List.mem_flatMap]
    refine ⟨f, hf, ?_⟩
    rw [if_pos hc]
    rcases hname with h | h <;> simp [h]

/-- Fixture: a.go declares the method Recv.Name; c.go declares a plain
function Name. -/
def c2FuncsBase : List (GoStr × List FuncInfo) :=
  [(gs "a.go", [⟨gs "Name", gs "a.go", 1, gs "Recv"⟩]),
   (gs "c.go", [⟨gs "Name", gs "c.go", 1, []⟩])]

/-- Fixture: c_test.go holds TestName calling the plain Name. -/
def c2TestsBase : List (GoStr × List TestInfo) :=
  [(gs "c_test.go",
    [{ Name := gs "TestName", File := gs "c_test.go", Line := 1, CalledFuncs := [gs "Name"] }])]

/-- Fixture: a routine in a_test.go whose name matches nothing, calling
X1, X2 (declared in a.go) and Y (declared in b.go). -/
def c2TestSelf : TestInfo :=
  { Name := gs "TestZzz", File := gs "a_test.go", Line := 1,
    CalledFuncs := [gs "X1", gs "X2", gs "Y"] }

/-- Fixture: the declarations for the self-marking scenario. -/
def c2FuncsSelf : List (GoStr × List FuncInfo) :=
  [(gs "a.go", [⟨gs "X1", gs "a.go", 1, []⟩, ⟨gs "X2", gs "a.go", 2, []⟩]),
   (gs "b.go", [⟨gs "Y", gs "b.go", 1, []⟩])]

/-- Fixture: the single test file of the self-marking scenario. -/
def c2TestsSelf : List (GoStr × List TestInfo) := [(gs "a_test.go", [c2TestSelf])]

/-- C2 counterexample.  First: the key Recv_Name is not in the
properly-tested set, yet the fallback skips it (counts nothing) because
its post-underscore base Name is in the set — refuting "skipped exactly
when it belongs to the set"; counting it, as the claim dictates, would
yield a.go.  Second: the set is built without excluding the routine
being resolved — X1 is in the set solely because TestZzz itself (the
only routine anywhere) calls it from a.go's expected test file, so the
fallback for TestZzz skips X1 and X2, counts only Y, and reports TestZzz
misplaced to b_test.go; under the claim's set (no *other* routine
exists, so empty) nothing is reported. -/
theorem claim2_counterexample :
    (gs "Recv_Name") ∉ buildProperlyTestedFuncsMap c2TestsBase c2FuncsBase ∧
    matchesFunctionCall ⟨gs "Name", gs "a.go", 1, gs "Recv"⟩ (gs "Recv_Name") = true ∧
    findPrimarySourceFile [gs "Recv_Name"] c2FuncsBase
      (buildProperlyTestedFuncsMap c2TestsBase c2FuncsBase) = [] ∧
    findPrimarySourceFile [gs "Recv_Name"] c2FuncsBase [] = gs "a.go" ∧
    (gs "X1") ∈ buildProperlyTestedFuncsMap c2TestsSelf c2FuncsSelf ∧
    checkTestPlacement c2TestSelf (gs "a_test.go") c2FuncsSelf
      (buildProperlyTestedFuncsMap c2TestsSelf c2FuncsSelf) =
      some { Test := c2TestSelf, ExpectedFile := gs "b_test.go",
             ActualFile := gs "a_test.go" } ∧
    checkTestPlacement c2TestSelf (gs "a_test.go") c2FuncsSelf [] = none := by
  decide

/-- C2 amended: a called target is skipped by the fallback exactly when
the target itself, or its base after the last underscore (underscore at
a positive index), is in the properly-tested set — equivalently, the
fallback counts exactly the unskipped targets; and the set, computed
once without excluding the routine being resolved, contains a name iff
it is the plain name or receiver-qualified key of some declaration whose
file's expected test file holds routines among whose called targets (or
their post-underscore bases) that declaration's plain name or qualified
key appears. -/
theorem claim2_amended_properly_tested :
    (∀ (props : List GoStr) (c : GoStr),
       skipProperlyTested props c = true ↔ skippedTargetSpec props c) ∧
    (∀ (calledFuncs : List GoStr) (fileFunctions : List (GoStr × List FuncInfo))
       (props : List GoStr),
       findPrimarySourceFile calledFuncs fileFunctions props =
         findPrimarySourceFile
           (calledFuncs.filter (fun c => !skipProperlyTested props c)) fileFunctions []) ∧
    (∀ (fileTests : List (GoStr × List TestInfo))
       (fileFunctions : List (GoStr × List FuncInfo)) (name : GoStr),
       name ∈ buildProperlyTestedFuncsMap fileTests fileFunctions ↔
         ∃ sf ∈ fileFunctions, ∃ tests,
           lookupMap fileTests (expectedTestFileOf sf.1) = some tests ∧
           ∃ f ∈ sf.2,
             (f.Name ∈ calledKeysWithBases tests ∨ funcKeyOf f ∈ calledKeysWithBases tests) ∧
             (name = f.Name ∨ name = funcKeyOf f)) :=
  ⟨skipProperlyTested_iff_spec, findPrimarySourceFile_filter, mem_buildProperlyTested_iff⟩
